import Mathlib

/-!
Verification of `crates/pop-parachains/src/build.rs` (pop-cli).

The build pipeline is embedded shallowly:
* file contents and filesystem paths are `List Char` (Rust `String` / `Path` display form);
* the filesystem is an existence predicate `Str → Bool`;
* the external command runner (`duct::cmd(..).run()`) is an oracle
  `Invocation → Bool` (`true` = the spawned process exited successfully),
  and every modelled operation also returns the list of invocations it
  actually spawned, so "no external process is run" is provable;
* `serde_json` parsing is modelled by a small fuel-based JSON parser
  faithful to the grammar serde_json accepts for the fields of interest;
* `pop_common::replace_in_file` (a workspace crate outside the analysed
  sources) is modelled from the spec as a literal find-and-replace.
-/

namespace PopParachains

/-- File contents and paths are modelled as lists of characters. -/
abbrev Str : Type := List Char

/-! ## Literal find-and-replace (model of Rust `str::replace`) -/

/-- Tests whether `pat` matches at the start of `s`, character by character. -/
def matchHere : Str → Str → Bool
  | [], _ => true
  | _ :: _, [] => false
  | p :: ps, c :: cs => p == c && matchHere ps cs

/-- Modelled from the spec: `pop_common::replace_in_file` performs a textual
find-and-replace over the file's raw contents, replacing each leftmost
non-overlapping occurrence of the literal pattern (Rust `str::replace`
semantics). Fuel-based so it is structural; fuel `s.length` always suffices. -/
def replaceFuel (pat rep : Str) : Nat → Str → Str
  | _, [] => []
  | 0, c :: s => c :: s
  | fuel + 1, c :: s =>
    if !pat.isEmpty && matchHere pat (c :: s) then
      rep ++ replaceFuel pat rep fuel (s.drop (pat.length - 1))
    else
      c :: replaceFuel pat rep fuel s

/-- Replace every leftmost non-overlapping occurrence of `pat` in `s` by `rep`. -/
def replaceAll (pat rep s : Str) : Str := replaceFuel pat rep s.length s

/-- Prepends a character to the first segment of a split (used by `splitFuel`). -/
def consHead (c : Char) : List Str → List Str
  | [] => [[c]]
  | t :: ts => (c :: t) :: ts

/-- Splits `s` at the leftmost non-overlapping occurrences of `pat`, returning
the (occurrence-free) segments between occurrences. Same scan as `replaceFuel`. -/
def splitFuel (pat : Str) : Nat → Str → List Str
  | _, [] => [[]]
  | 0, c :: s => [c :: s]
  | fuel + 1, c :: s =>
    if !pat.isEmpty && matchHere pat (c :: s) then
      [] :: splitFuel pat fuel (s.drop (pat.length - 1))
    else
      consHead c (splitFuel pat fuel s)

/-- Segments of `s` between the leftmost non-overlapping occurrences of `pat`. -/
def splitOnPat (pat s : Str) : List Str := splitFuel pat s.length s

/-- Joins segments, interposing `pat` between consecutive segments. -/
def sew (pat : Str) : List Str → Str
  | [] => []
  | [t] => t
  | t :: ts => t ++ pat ++ sew pat ts

/-- No occurrence of `pat` inside `t` (at any position). -/
def NoMatch (pat t : Str) : Prop := ∀ i : Nat, matchHere pat (t.drop i) = false

theorem matchHere_decomp : ∀ {pat s : Str}, matchHere pat s = true →
    s = pat ++ s.drop pat.length := by
  intro pat
  induction pat with
  | nil => intro s _; simp
  | cons p ps ih =>
    intro s h
    cases s with
    | nil => simp [matchHere] at h
    | cons c cs =>
      simp only [matchHere, Bool.and_eq_true, beq_iff_eq] at h
      obtain ⟨rfl, h2⟩ := h
      have h3 := ih h2
      simp only [List.length_cons, List.drop_succ_cons, List.cons_append]
      exact congrArg _ h3

theorem matchHere_append : ∀ {pat x : Str}, matchHere pat x = true →
    ∀ (u : Str), matchHere pat (x ++ u) = true := by
  intro pat
  induction pat with
  | nil => intro x _ u; rfl
  | cons p ps ih =>
    intro x h u
    cases x with
    | nil => simp [matchHere] at h
    | cons c cs =>
      simp only [matchHere, Bool.and_eq_true] at h ⊢
      exact ⟨h.1, ih h.2 u⟩

theorem splitFuel_ne_nil (pat : Str) (fuel : Nat) (s : Str) :
    splitFuel pat fuel s ≠ [] := by
  match fuel, s with
  | _, [] => simp [splitFuel]
  | 0, c :: s => simp [splitFuel]
  | fuel + 1, c :: s =>
    simp only [splitFuel]
    split
    · simp
    · match h : splitFuel pat fuel s with
      | [] => simp [consHead]
      | t :: ts => simp [consHead]

theorem sew_consHead (pat : Str) (c : Char) :
    ∀ (l : List Str), l ≠ [] → sew pat (consHead c l) = c :: sew pat l := by
  intro l hl
  match l with
  | [t] => rfl
  | t :: t2 :: ts => simp [consHead, sew]

/-- Dropping the full pattern from a match site steps past the head character. -/
theorem drop_patlen_cons {pat : Str} (hne : pat ≠ []) (c : Char) (s : Str) :
    (c :: s).drop pat.length = s.drop (pat.length - 1) := by
  match pat, hne with
  | p :: ps, _ => simp

theorem sew_splitFuel (pat : Str) : ∀ (fuel : Nat) (s : Str),
    sew pat (splitFuel pat fuel s) = s := by
  intro fuel
  induction fuel with
  | zero =>
    intro s
    cases s <;> simp [splitFuel, sew]
  | succ n ih =>
    intro s
    cases s with
    | nil => simp [splitFuel, sew]
    | cons c s =>
      simp only [splitFuel]
      by_cases h : (!pat.isEmpty && matchHere pat (c :: s)) = true
      · rw [if_pos h]
        have h' := h
        simp only [Bool.and_eq_true] at h'
        obtain ⟨hne, hm⟩ := h'
        have hpat : pat ≠ [] := by
          intro hp; rw [hp] at hne; simp at hne
        obtain ⟨t, ts, ht⟩ :=
          List.exists_cons_of_ne_nil (splitFuel_ne_nil pat n (s.drop (pat.length - 1)))
        rw [ht]
        have : sew pat ([] :: t :: ts) = pat ++ sew pat (t :: ts) := by simp [sew]
        rw [this, ← ht, ih]
        have hd := matchHere_decomp hm
        rw [drop_patlen_cons hpat] at hd
        exact hd.symm
      · rw [if_neg h, sew_consHead pat c _ (splitFuel_ne_nil pat n s), ih]

theorem replaceFuel_eq_sew (pat rep : Str) : ∀ (fuel : Nat) (s : Str),
    replaceFuel pat rep fuel s = sew rep (splitFuel pat fuel s) := by
  intro fuel
  induction fuel with
  | zero =>
    intro s
    cases s <;> simp [replaceFuel, splitFuel, sew]
  | succ n ih =>
    intro s
    cases s with
    | nil => simp [replaceFuel, splitFuel, sew]
    | cons c s =>
      simp only [replaceFuel, splitFuel]
      by_cases h : (!pat.isEmpty && matchHere pat (c :: s)) = true
      · rw [if_pos h, if_pos h]
        obtain ⟨t, ts, ht⟩ :=
          List.exists_cons_of_ne_nil (splitFuel_ne_nil pat n (s.drop (pat.length - 1)))
        rw [ht]
        have : sew rep ([] :: t :: ts) = rep ++ sew rep (t :: ts) := by simp [sew]
        rw [this, ← ht, ih]
      · rw [if_neg h, if_neg h, sew_consHead rep c _ (splitFuel_ne_nil pat n s), ih]

/-- The segments of a split reassemble (with the pattern) to exactly the input:
every byte outside the occurrences is preserved verbatim. -/
theorem sew_splitOnPat (pat s : Str) : sew pat (splitOnPat pat s) = s :=
  sew_splitFuel pat s.length s

/-- Replacement keeps the segments between occurrences byte-identical and
substitutes `rep` at each occurrence of `pat`. -/
theorem replaceAll_eq_sew (pat rep s : Str) :
    replaceAll pat rep s = sew rep (splitOnPat pat s) :=
  replaceFuel_eq_sew pat rep s.length s

/-- Replacing a pattern by itself is the identity. -/
theorem replaceAll_self (pat s : Str) : replaceAll pat pat s = s := by
  rw [replaceAll_eq_sew, sew_splitOnPat]

theorem matchHere_nil_false {pat : Str} (h : pat ≠ []) : matchHere pat [] = false := by
  match pat, h with
  | p :: ps, _ => rfl

theorem noMatch_nil {pat : Str} (h : pat ≠ []) : NoMatch pat [] := by
  intro i
  simp only [List.drop_nil]
  exact matchHere_nil_false h

theorem splitFuel_head_init (pat : Str) : ∀ (fuel : Nat) (s t : Str) (ts : List Str),
    splitFuel pat fuel s = t :: ts → ∃ u, s = t ++ u := by
  intro fuel
  induction fuel with
  | zero =>
    intro s t ts h
    cases s with
    | nil =>
      simp only [splitFuel, List.cons.injEq] at h
      exact ⟨[], by simp [← h.1]⟩
    | cons c s =>
      simp only [splitFuel, List.cons.injEq] at h
      exact ⟨[], by simp [← h.1]⟩
  | succ n ih =>
    intro s t ts h
    cases s with
    | nil =>
      simp only [splitFuel, List.cons.injEq] at h
      exact ⟨[], by simp [← h.1]⟩
    | cons c s =>
      simp only [splitFuel] at h
      by_cases hg : (!pat.isEmpty && matchHere pat (c :: s)) = true
      · rw [if_pos hg] at h
        exact ⟨c :: s, by simp [← (List.cons.injEq .. ▸ h).1]⟩
      · rw [if_neg hg] at h
        obtain ⟨t', ts', ht'⟩ := List.exists_cons_of_ne_nil (splitFuel_ne_nil pat n s)
        rw [ht'] at h
        simp only [consHead, List.cons.injEq] at h
        obtain ⟨u, hu⟩ := ih s t' ts' ht'
        exact ⟨u, by simp [← h.1, hu]⟩

theorem splitFuel_no_match (pat : Str) (hpat : pat ≠ []) :
    ∀ (fuel : Nat) (s : Str), s.length ≤ fuel →
      ∀ t ∈ splitFuel pat fuel s, NoMatch pat t := by
  intro fuel
  induction fuel with
  | zero =>
    intro s hs t ht
    cases s with
    | nil =>
      simp only [splitFuel, List.mem_singleton] at ht
      rw [ht]; exact noMatch_nil hpat
    | cons c s => simp at hs
  | succ n ih =>
    intro s hs t ht
    cases s with
    | nil =>
      simp only [splitFuel, List.mem_singleton] at ht
      rw [ht]; exact noMatch_nil hpat
    | cons c s =>
      have hs' : s.length ≤ n := by simpa using hs
      simp only [splitFuel] at ht
      by_cases hg : (!pat.isEmpty && matchHere pat (c :: s)) = true
      · rw [if_pos hg] at ht
        rcases List.mem_cons.mp ht with h | h
        · rw [h]; exact noMatch_nil hpat
        · exact ih (s.drop (pat.length - 1))
            (le_trans (by simp) hs') t h
      · rw [if_neg hg] at ht
        have hmf : matchHere pat (c :: s) = false := by
          cases hcase : matchHere pat (c :: s) with
          | false => rfl
          | true =>
            exfalso
            apply hg
            simp [hcase, List.isEmpty_eq_true, hpat]
        obtain ⟨t', ts', ht'⟩ := List.exists_cons_of_ne_nil (splitFuel_ne_nil pat n s)
        rw [ht'] at ht
        simp only [consHead] at ht
        rcases List.mem_cons.mp ht with h | h
        · subst h
          intro i
          match i with
          | 0 =>
            simp only [List.drop_zero]
            cases hm : matchHere pat (c :: t') with
            | false => rfl
            | true =>
              exfalso
              obtain ⟨u, hu⟩ := splitFuel_head_init pat n s t' ts' ht'
              have hext := matchHere_append hm u
              rw [show (c :: t') ++ u = c :: s by simp [hu]] at hext
              rw [hext] at hmf
              cases hmf
          | i + 1 =>
            simp only [List.drop_succ_cons]
            exact ih s hs' t' (ht' ▸ List.mem_cons_self t' ts') i
        · exact ih s hs' t (ht' ▸ List.mem_cons_of_mem t' h)

/-- Every segment produced by `splitOnPat` is free of occurrences of the
pattern: the split finds all (leftmost, non-overlapping) occurrences. -/
theorem splitOnPat_no_match {pat : Str} (hpat : pat ≠ []) (s : Str) :
    ∀ t ∈ splitOnPat pat s, NoMatch pat t :=
  splitFuel_no_match pat hpat s.length s le_rfl

/-! ## The para_id patterns and `replace_para_id` (build.rs lines 187–197) -/

/-- Decimal rendering of an identifier, as Rust `format!` renders a `u32`. -/
def natDigits (n : Nat) : Str := Nat.toDigits 10 n

/-- The literal text preceding the identifier in the `"para_id"` pattern. -/
def paraKey : Str := "\"para_id\": ".toList

/-- The literal text preceding the identifier in the `"parachainId"` pattern. -/
def parachainKey : Str := "\"parachainId\": ".toList

/-- The pattern `format!("\"para_id\": {id}")` of `replace_para_id`. -/
def paraIdPat (id : Nat) : Str := paraKey ++ natDigits id

/-- The pattern `format!("\"parachainId\": {id}")` of `replace_para_id`. -/
def parachainIdPat (id : Nat) : Str := parachainKey ++ natDigits id

theorem paraIdPat_ne_nil (id : Nat) : paraIdPat id ≠ [] := by
  intro h
  exact absurd (List.append_eq_nil.mp h).1 (by decide)

theorem parachainIdPat_ne_nil (id : Nat) : parachainIdPat id ≠ [] := by
  intro h
  exact absurd (List.append_eq_nil.mp h).1 (by decide)

/-- Embeds `replace_para_id` (build.rs lines 187–197). The two pattern pairs are
handed to `pop_common::replace_in_file`, modelled from the spec as a literal
find-and-replace of each pattern over the raw file text; the two patterns
differ at their fifth character (`_` vs `c`) and cannot overlap, so the
iteration order of the `HashMap` of replacements is immaterial and is fixed
here as: first the `"para_id"` pattern, then the `"parachainId"` pattern. -/
def para_phase (content : Str) (para_id generated_para_id : Nat) : Str :=
  replaceAll (paraIdPat generated_para_id) (paraIdPat para_id) content

/-- Embeds `replace_para_id` (build.rs lines 187–197): both literal pattern
pairs applied to the raw file text (see `para_phase`). -/
def replace_para_id (content : Str) (para_id generated_para_id : Nat) : Str :=
  replaceAll (parachainIdPat generated_para_id) (parachainIdPat para_id)
    (para_phase content para_id generated_para_id)

/-! ## JSON model (the `serde_json` collaborator)

`serde_json::Value` with a faithful-enough number model: a numeric literal
without fraction or exponent that fits the machine integer ranges is stored
as an integer (`isInt = true`, Rust `u64`/`i64`); anything else (fractions,
exponents, out-of-range literals) is stored as a float, for which only the
fact that `Value::as_u64` returns `None` matters, so its value is untracked. -/

inductive Json where
  | null
  | bool (bv : Bool)
  | num (isInt : Bool) (value : Int)
  | str (chars : Str)
  | arr (items : List Json)
  | obj (fields : List (Str × Json))

/-- Whitespace accepted by the serde_json grammar (space, newline, tab, CR). -/
def wsChar (c : Char) : Bool :=
  decide (c = ' ' ∨ c = '\n' ∨ c = '\t' ∨ c = '\r')

def skipWs (s : Str) : Str := s.dropWhile wsChar

/-- Single-character string escapes of the JSON grammar. `\uXXXX` escapes are
not modelled (the parser rejects them); the pipeline never reads such keys. -/
def escChar (e : Char) : Option Char :=
  if e = 'n' then some '\n'
  else if e = 't' then some '\t'
  else if e = 'r' then some '\r'
  else if e = 'b' then some '\x08'
  else if e = 'f' then some '\x0c'
  else if e = '"' ∨ e = '\\' ∨ e = '/' then some e
  else none

/-- Parses a JSON string body (after the opening quote) up to its closing quote. -/
def parseStrBody : Str → Option (Str × Str)
  | [] => none
  | '"' :: rest => some ([], rest)
  | '\\' :: e :: rest =>
    match escChar e with
    | some c => (parseStrBody rest).map (fun p => (c :: p.1, p.2))
    | none => none
  | c :: rest => (parseStrBody rest).map (fun p => (c :: p.1, p.2))

def digitVal (c : Char) : Nat := c.toNat - 48

def digitsToNat (ds : Str) : Nat := ds.foldl (fun a c => digitVal c + 10 * a) 0

/-- Builds the number value serde_json stores: integers in range stay integers
(`-0` becomes the non-negative integer `0`, as in serde_json); fractions,
exponents and out-of-range literals become floats. -/
def mkNum (neg : Bool) (mag : Nat) (isFloat : Bool) : Json :=
  if isFloat then Json.num false 0
  else if neg then
    (if mag ≤ 2 ^ 63 then Json.num true (-(mag : Int)) else Json.num false 0)
  else
    (if mag < 2 ^ 64 then Json.num true (mag : Int) else Json.num false 0)

/-- Parses an optional exponent part (after the `e`/`E`); its presence makes
the number a float. -/
def parseExpTail (neg : Bool) (mag : Nat) (r : Str) : Option (Json × Str) :=
  let r1 : Str :=
    match r with
    | '+' :: t => t
    | '-' :: t => t
    | _ => r
  let es := r1.takeWhile Char.isDigit
  if es.isEmpty then none
  else some (mkNum neg mag true, r1.drop es.length)

def parseNumTail (neg : Bool) (mag : Nat) (isFloat : Bool) (r : Str) : Option (Json × Str) :=
  match r with
  | 'e' :: r' => parseExpTail neg mag r'
  | 'E' :: r' => parseExpTail neg mag r'
  | _ => some (mkNum neg mag isFloat, r)

/-- Parses a JSON numeric literal: optional minus, integer part without
leading zeros, optional fraction, optional exponent. -/
def parseNum (s : Str) : Option (Json × Str) :=
  let neg : Bool := s.head? == some '-'
  let s1 : Str := if neg then s.tail else s
  let ds := s1.takeWhile Char.isDigit
  if ds.isEmpty then none
  else if ds.head? = some '0' ∧ 1 < ds.length then none
  else
    let mag := digitsToNat ds
    let r := s1.drop ds.length
    match r with
    | '.' :: r' =>
      let fs := r'.takeWhile Char.isDigit
      if fs.isEmpty then none else parseNumTail neg mag true (r'.drop fs.length)
    | _ => parseNumTail neg mag false r

mutual

/-- Parses one JSON value, returning it and the unconsumed rest. Fuel-based;
`parseJson` supplies ample fuel. -/
def parseValue : Nat → Str → Option (Json × Str)
  | 0, _ => none
  | fuel + 1, s =>
    match skipWs s with
    | 'n' :: 'u' :: 'l' :: 'l' :: r => some (Json.null, r)
    | 't' :: 'r' :: 'u' :: 'e' :: r => some (Json.bool true, r)
    | 'f' :: 'a' :: 'l' :: 's' :: 'e' :: r => some (Json.bool false, r)
    | '"' :: r => (parseStrBody r).map (fun p => (Json.str p.1, p.2))
    | '[' :: r =>
      (match skipWs r with
       | ']' :: r' => some (Json.arr [], r')
       | _ => (parseElems fuel r).map (fun p => (Json.arr p.1, p.2)))
    | '{' :: r =>
      (match skipWs r with
       | '}' :: r' => some (Json.obj [], r')
       | _ => (parseMembers fuel r).map (fun p => (Json.obj p.1, p.2)))
    | s' => parseNum s'

/-- Parses the comma-separated elements of a non-empty array, including the
closing bracket. -/
def parseElems : Nat → Str → Option (List Json × Str)
  | 0, _ => none
  | fuel + 1, s =>
    match parseValue fuel s with
    | none => none
    | some (v, r) =>
      match skipWs r with
      | ',' :: r' =>
        (match parseElems fuel r' with
         | none => none
         | some (vs, r'') => some (v :: vs, r''))
      | ']' :: r' => some ([v], r')
      | _ => none

/-- Parses the comma-separated members of a non-empty object, including the
closing brace. -/
def parseMembers : Nat → Str → Option (List (Str × Json) × Str)
  | 0, _ => none
  | fuel + 1, s =>
    match skipWs s with
    | '"' :: r =>
      (match parseStrBody r with
       | none => none
       | some (k, r1) =>
         match skipWs r1 with
         | ':' :: r2 =>
           (match parseValue fuel r2 with
            | none => none
            | some (v, r3) =>
              match skipWs r3 with
              | ',' :: r4 =>
                (match parseMembers fuel r4 with
                 | none => none
                 | some (ms, r5) => some ((k, v) :: ms, r5))
              | '}' :: r4 => some ([(k, v)], r4)
              | _ => none)
         | _ => none)
    | _ => none

end

/-- Models `serde_json::from_str::<Value>`: parses one value and requires only
whitespace to remain. -/
def parseJson (content : Str) : Option Json :=
  match parseValue (2 * content.length + 2) content with
  | some (v, r) => if (skipWs r).isEmpty then some v else none
  | none => none

/-- Models `serde_json::Value::as_u64`: `Some` exactly for numbers stored as
non-negative machine integers. -/
def asU64 : Json → Option Nat
  | Json.num true v => if 0 ≤ v ∧ v < 2 ^ 64 then some v.toNat else none
  | _ => none

/-- Models `Value::get(key)` on the parse result: object member lookup (last
binding wins, as in serde_json's map built by insertion), `None` on
non-objects. -/
def objGet (key : Str) : Json → Option Json
  | Json.obj ms => ms.foldl (fun acc m => if m.1 == key then some m.2 else acc) none
  | _ => none

/-- The JSON key whose value is the parachain identifier. -/
def paraIdField : Str := "para_id".toList

/-- Embeds `get_parachain_id` (build.rs lines 180–184) at the level of the
file's contents: parse the contents as JSON and read the top-level
`"para_id"` field as a `u64`. `.error ()` models the propagated
`serde_json` parse failure (the file-read step is outside the embedding:
the claims quantify over contents). -/
def get_parachain_id (content : Str) : Except Unit (Option Nat) :=
  match parseJson content with
  | some v => .ok ((objGet paraIdField v).bind asU64)
  | none => .error ()

/-- Embeds the identifier computation on line 84 of `generate_plain_chain_spec`:
`get_parachain_id(plain_chain_spec)?.unwrap_or(para_id.into()) as u32`.
The `as u32` cast truncates the `u64` to its low 32 bits. -/
def generated_id (content : Str) (para_id : Nat) : Except Unit Nat :=
  (get_parachain_id content).map (fun r => (r.getD para_id) % 2 ^ 32)

/-- Embeds the reconciliation step of `generate_plain_chain_spec`
(build.rs lines 84–86): the replacement is invoked unconditionally with the
caller's `para_id` and the identifier read back from the generated file. -/
def reconcile_chain_spec (content : Str) (para_id : Nat) : Except Unit Str :=
  (generated_id content para_id).map (fun g => replace_para_id content para_id g)

/-! ## Errors, external processes and paths -/

/-- Error kinds of the subsystem. `MissingBinary`, `MissingChainSpec` and
`MissingCommand` are constructed in build.rs; `Anyhow` models any propagated
collaborator error (manifest read, JSON parse) and `ProcessFailure` models a
failed `duct` run surfaced without subsystem-specific classification
(`errors.rs` is outside the analysed sources; kinds follow the spec, §7). -/
inductive Error where
  | MissingBinary (name : Str)
  | MissingChainSpec (path : Str)
  | MissingCommand (command : Str) (binary : Str)
  | Anyhow
  | ProcessFailure
deriving DecidableEq

/-- An external process invocation: program and arguments (`duct::cmd`). The
working directory and stdout redirection do not affect any claim and are
omitted. -/
structure Invocation where
  prog : Str
  args : List Str
deriving DecidableEq

def buildSpecCmd : Str := "build-spec".toList
def exportWasmCmd : Str := "export-genesis-wasm".toList
def exportStateCmd : Str := "export-genesis-state".toList
def helpFlag : Str := "--help".toList
def chainFlag : Str := "--chain".toList
def noBootnodeFlag : Str := "--disable-default-bootnode".toList
def rawFlag : Str := "--raw".toList

/-- The capability-probe invocation `<binary> <command> --help`. -/
def probe (binary command : Str) : Invocation := ⟨binary, [command, helpFlag]⟩

/-- Embeds `check_command_exists` (build.rs lines 200–208): run the probe,
mapping every failure (non-zero exit or spawn failure, collapsed into the
runner oracle returning `false`) to `MissingCommand`. -/
def check_command_exists (runner : Invocation → Bool) (binary command : Str) :
    Except Error Unit :=
  if runner (probe binary command) then .ok ()
  else .error (.MissingCommand command binary)

/-- Models Rust `Path::parent`: strips the final component; `none` for the
empty path and the bare root, `some []` for a single relative component. -/
def parentDir (p : Str) : Option Str :=
  if p = [] ∨ p = ['/'] then none
  else
    let pre := (p.reverse.dropWhile (fun c => !(c == '/'))).reverse
    match pre with
    | [] => some []
    | ['/'] => some ['/']
    | _ => some pre.dropLast

/-- The `parent().unwrap_or(Path::new("./"))` idiom of the exporters. -/
def parentOrDot (p : Str) : Str := (parentDir p).getD "./".toList

/-- Models Rust `Path::join` for a relative file-name component. -/
def pathJoin (d n : Str) : Str :=
  if d.isEmpty then n
  else if d.getLast? = some '/' then d ++ n
  else d ++ '/' :: n

/-! ## The exporters (build.rs lines 95–177)

Each returns its result together with the list of external invocations it
spawned, in order, so that "invokes no external process" is provable. -/

/-- Embeds `generate_raw_chain_spec` (lines 95–124): existence precondition,
capability probe, then `build-spec --chain <plain> --disable-default-bootnode
--raw` with stdout redirected to the sibling raw path. -/
def generate_raw_chain_spec (fs : Str → Bool) (runner : Invocation → Bool)
    (binary plain_chain_spec chain_spec_file_name : Str) :
    Except Error Str × List Invocation :=
  if fs plain_chain_spec = false then
    (.error (.MissingChainSpec plain_chain_spec), [])
  else if runner (probe binary buildSpecCmd) = false then
    (.error (.MissingCommand buildSpecCmd binary), [probe binary buildSpecCmd])
  else
    let raw := pathJoin (parentOrDot plain_chain_spec) chain_spec_file_name
    let inv : Invocation :=
      ⟨binary, [buildSpecCmd, chainFlag, plain_chain_spec, noBootnodeFlag, rawFlag]⟩
    if runner inv then (.ok raw, [probe binary buildSpecCmd, inv])
    else (.error .ProcessFailure, [probe binary buildSpecCmd, inv])

/-- Embeds `export_wasm_file` (lines 127–153): existence precondition,
capability probe, then `export-genesis-wasm --chain <spec> <out>`. -/
def export_wasm_file (fs : Str → Bool) (runner : Invocation → Bool)
    (binary chain_spec wasm_file_name : Str) :
    Except Error Str × List Invocation :=
  if fs chain_spec = false then
    (.error (.MissingChainSpec chain_spec), [])
  else if runner (probe binary exportWasmCmd) = false then
    (.error (.MissingCommand exportWasmCmd binary), [probe binary exportWasmCmd])
  else
    let wasm_file := pathJoin (parentOrDot chain_spec) wasm_file_name
    let inv : Invocation := ⟨binary, [exportWasmCmd, chainFlag, chain_spec, wasm_file]⟩
    if runner inv then (.ok wasm_file, [probe binary exportWasmCmd, inv])
    else (.error .ProcessFailure, [probe binary exportWasmCmd, inv])

/-- Embeds `generate_genesis_state_file` (lines 156–177): existence
precondition, capability probe, then `export-genesis-state --chain <spec>
<out>`. -/
def generate_genesis_state_file (fs : Str → Bool) (runner : Invocation → Bool)
    (binary chain_spec genesis_file_name : Str) :
    Except Error Str × List Invocation :=
  if fs chain_spec = false then
    (.error (.MissingChainSpec chain_spec), [])
  else if runner (probe binary exportStateCmd) = false then
    (.error (.MissingCommand exportStateCmd binary), [probe binary exportStateCmd])
  else
    let genesis_file := pathJoin (parentOrDot chain_spec) genesis_file_name
    let inv : Invocation := ⟨binary, [exportStateCmd, chainFlag, chain_spec, genesis_file]⟩
    if runner inv then (.ok genesis_file, [probe binary exportStateCmd, inv])
    else (.error .ProcessFailure, [probe binary exportStateCmd, inv])

/-- The `build-spec --disable-default-bootnode` invocation of
`generate_plain_chain_spec`. -/
def buildSpecInv (binary : Str) : Invocation := ⟨binary, [buildSpecCmd, noBootnodeFlag]⟩

/-- Embeds `generate_plain_chain_spec` (build.rs lines 77–87): probe
`build-spec`, run it with stdout redirected to the plain spec path (the
written contents are given by the oracle `output`), then reconcile the
identifier. Returns the final contents of the plain spec file. -/
def generate_plain_chain_spec (runner : Invocation → Bool) (output : Invocation → Str)
    (binary : Str) (para_id : Nat) :
    Except Error Str × List Invocation :=
  if runner (probe binary buildSpecCmd) = false then
    (.error (.MissingCommand buildSpecCmd binary), [probe binary buildSpecCmd])
  else if runner (buildSpecInv binary) = false then
    (.error .ProcessFailure, [probe binary buildSpecCmd, buildSpecInv binary])
  else
    match reconcile_chain_spec (output (buildSpecInv binary)) para_id with
    | .ok newContent => (.ok newContent, [probe binary buildSpecCmd, buildSpecInv binary])
    | .error _ => (.error .Anyhow, [probe binary buildSpecCmd, buildSpecInv binary])

/-! ## Binary resolution and project classification -/

/-- Embeds `binary_path` (build.rs lines 59–67). The manifest reader
`pop_common::manifest::from_path` is outside the analysed sources and is
modelled from the spec as an oracle from a node-project path to the
manifest-declared package name (`none` models a manifest read failure,
propagated as a collaborator error). -/
def binary_path (fs : Str → Bool) (manifest : Str → Option Str)
    (target_path node_path : Str) : Except Error Str :=
  match manifest node_path with
  | none => .error .Anyhow
  | some node_name =>
    let release := pathJoin target_path node_name
    if fs release then .ok release else .error (.MissingBinary node_name)

/-- Build profile. Modelled from the spec: `pop_common::Profile` is an
enumerated build mode determining the output subdirectory. -/
inductive Profile where
  | Debug
  | Release
deriving DecidableEq

/-- Modelled from the spec: `Profile::target_folder` is the build-output
subdirectory (`target/debug` or `target/release`) under the project path. -/
def target_folder (profile : Profile) (path : Str) : Str :=
  pathJoin (pathJoin path "target".toList)
    (match profile with
     | .Debug => "debug".toList
     | .Release => "release".toList)

/-- The argument vector `build_parachain` hands to `cargo`. -/
def cargoArgs (package : Option Str) (profile : Profile) : List Str :=
  ["build".toList] ++
    (match package with
     | some p => ["--package".toList, p]
     | none => []) ++
    (match profile with
     | .Release => ["--release".toList]
     | .Debug => [])

/-- Embeds `build_parachain` (build.rs lines 21–37): run `cargo build`
(scoped to `package` when given, `--release` for the release profile) in the
project directory, then resolve the node binary. -/
def build_parachain (fs : Str → Bool) (runner : Invocation → Bool)
    (manifest : Str → Option Str) (path : Str) (package : Option Str)
    (profile : Profile) (node_path : Option Str) : Except Error Str :=
  if runner ⟨"cargo".toList, cargoArgs package profile⟩ = false then .error .ProcessFailure
  else
    binary_path fs manifest (target_folder profile path)
      (node_path.getD (pathJoin path "node".toList))

/-- Modelled from the spec: the workspace section of a parsed manifest, with
its shared dependency names. -/
structure Workspace where
  dependencies : List Str

/-- Modelled from the spec: a successfully parsed manifest, reduced to what
`is_supported` inspects — the keys of the direct dependency table and, when a
workspace section is present, of the workspace dependency table. Keys only:
the membership test never looks at versions. -/
structure Manifest where
  dependencies : List Str
  workspace : Option Workspace

/-- The fixed sentinel dependency names of `is_supported`. -/
def DEPENDENCIES : List Str :=
  ["cumulus-client-collator".toList, "cumulus-primitives-core".toList,
   "parachains-common".toList, "polkadot-sdk".toList]

/-- Embeds `is_supported` (build.rs lines 43–52) on a successfully parsed
manifest: some sentinel name is a key of the direct dependencies or of the
workspace dependencies (`map_or(false, ..)` over the optional workspace). -/
def is_supported (manifest : Manifest) : Bool :=
  DEPENDENCIES.any (fun d =>
    manifest.dependencies.contains d ||
      (match manifest.workspace with
       | some w => w.dependencies.contains d
       | none => false))

/-! ## Helper lemmas for the claim theorems -/

/-- Decidable form of "no segment contains an occurrence of `pat`". -/
def cleanSegs (pat : Str) (segs : List Str) : Bool :=
  segs.all (fun t => (List.range (t.length + 1)).all (fun i => !(matchHere pat (t.drop i))))

theorem cleanSegs_of_no_match {pat : Str} {segs : List Str}
    (h : ∀ t ∈ segs, NoMatch pat t) : cleanSegs pat segs = true := by
  simp only [cleanSegs, List.all_eq_true, List.mem_range, Bool.not_eq_true']
  intro t ht i _
  exact h t ht i

theorem cleanSegs_splitOnPat {pat : Str} (h : pat ≠ []) (s : Str) :
    cleanSegs pat (splitOnPat pat s) = true :=
  cleanSegs_of_no_match (splitOnPat_no_match h s)

theorem contains_iff_mem {l : List Str} {a : Str} : l.contains a = true ↔ a ∈ l :=
  List.elem_iff

/-! ## Claim theorems -/

/-- C1: with a nonexistent source chain-spec path, each of
`generate_raw_chain_spec`, `export_wasm_file` and
`generate_genesis_state_file` returns `MissingChainSpec` carrying that path
and spawns no external process at all — neither the capability probe nor the
subcommand appears in the invocation trace. -/
theorem c1_missing_chain_spec_no_process
    (fs : Str → Bool) (runner : Invocation → Bool)
    (binary plain raw_name wasm_name genesis_name : Str)
    (h : fs plain = false) :
    generate_raw_chain_spec fs runner binary plain raw_name =
      (.error (.MissingChainSpec plain), []) ∧
    export_wasm_file fs runner binary plain wasm_name =
      (.error (.MissingChainSpec plain), []) ∧
    generate_genesis_state_file fs runner binary plain genesis_name =
      (.error (.MissingChainSpec plain), []) := by
  refine ⟨?_, ?_, ?_⟩ <;>
    simp [generate_raw_chain_spec, export_wasm_file, generate_genesis_state_file, h]

theorem c1_witness :
    generate_raw_chain_spec (fun _ => false) (fun _ => true)
      "./bin".toList "./plain-spec.json".toList "raw.json".toList =
      (.error (.MissingChainSpec "./plain-spec.json".toList), []) ∧
    export_wasm_file (fun _ => false) (fun _ => true)
      "./bin".toList "./plain-spec.json".toList "para-wasm".toList =
      (.error (.MissingChainSpec "./plain-spec.json".toList), []) ∧
    generate_genesis_state_file (fun _ => false) (fun _ => true)
      "./bin".toList "./plain-spec.json".toList "para-genesis".toList =
      (.error (.MissingChainSpec "./plain-spec.json".toList), []) :=
  c1_missing_chain_spec_no_process (fun _ => false) (fun _ => true)
    "./bin".toList "./plain-spec.json".toList "raw.json".toList
    "para-wasm".toList "para-genesis".toList rfl

/-- A chain-spec file with one `"para_id": 1000` and one nested
`"parachainId": 1000` (the reconciliation example of the spec). -/
def specFile1000 : Str :=
  "\x7b\"name\": \"Local Testnet\", \"para_id\": 1000, \"parachainInfo\": \x7b\"parachainId\": 1000\x7d\x7d".toList

/-- `specFile1000` after reconciliation toward target identifier 2001. -/
def specFile1000To2001 : Str :=
  "\x7b\"name\": \"Local Testnet\", \"para_id\": 2001, \"parachainInfo\": \x7b\"parachainId\": 2001\x7d\x7d".toList

/-- C2: identifier reconciliation rewrites exactly the literal substrings
`"para_id": G` and `"parachainId": G` to their target forms: each of the two
passes substitutes its pattern at every occurrence and the segments between
occurrences — every other byte of the file — are preserved verbatim
(`sew`/`splitOnPat` reassemble the input exactly, and no segment contains an
occurrence). In particular the example file with `"para_id": 1000` and a
nested `"parachainId": 1000`, reconciled with G = 1000 toward T = 2001, has
exactly one occurrence of each pattern and ends with both reading 2001 and
no other byte changed. -/
theorem c2_replace_para_id_exact :
    (∀ (content : Str) (t g : Nat),
      para_phase content t g = sew (paraIdPat t) (splitOnPat (paraIdPat g) content) ∧
      sew (paraIdPat g) (splitOnPat (paraIdPat g) content) = content ∧
      cleanSegs (paraIdPat g) (splitOnPat (paraIdPat g) content) = true ∧
      replace_para_id content t g =
        sew (parachainIdPat t) (splitOnPat (parachainIdPat g) (para_phase content t g)) ∧
      sew (parachainIdPat g) (splitOnPat (parachainIdPat g) (para_phase content t g)) =
        para_phase content t g ∧
      cleanSegs (parachainIdPat g) (splitOnPat (parachainIdPat g) (para_phase content t g)) =
        true) ∧
    replace_para_id specFile1000 2001 1000 = specFile1000To2001 ∧
    (splitOnPat (paraIdPat 1000) specFile1000).length = 2 ∧
    (splitOnPat (parachainIdPat 1000) (para_phase specFile1000 2001 1000)).length = 2 := by
  refine ⟨fun content t g => ⟨?_, ?_, ?_, ?_, ?_, ?_⟩, by decide, by decide, by decide⟩
  · exact replaceAll_eq_sew _ _ _
  · exact sew_splitOnPat _ _
  · exact cleanSegs_splitOnPat (paraIdPat_ne_nil g) _
  · exact replaceAll_eq_sew _ _ _
  · exact sew_splitOnPat _ _
  · exact cleanSegs_splitOnPat (parachainIdPat_ne_nil g) _

/-- C3: in `generate_plain_chain_spec`, after the external run succeeds and
the generated identifier G is read back, reconciliation rewrites the file so
that every occurrence of G's placeholder patterns (`"para_id": G`,
`"parachainId": G`) is replaced by the caller's intended identifier, and
nothing else changes: the segments between occurrences reassemble to exactly
the pre-reconciliation contents, and no segment contains a leftover
occurrence. -/
theorem c3_reconciliation_replaces_every_occurrence
    (runner : Invocation → Bool) (output : Invocation → Str)
    (binary content : Str) (t g : Nat)
    (hprobe : runner (probe binary buildSpecCmd) = true)
    (hrun : runner (buildSpecInv binary) = true)
    (hout : output (buildSpecInv binary) = content)
    (hgen : generated_id content t = .ok g) :
    generate_plain_chain_spec runner output binary t =
      (.ok (replace_para_id content t g),
        [probe binary buildSpecCmd, buildSpecInv binary]) ∧
    para_phase content t g = sew (paraIdPat t) (splitOnPat (paraIdPat g) content) ∧
    sew (paraIdPat g) (splitOnPat (paraIdPat g) content) = content ∧
    cleanSegs (paraIdPat g) (splitOnPat (paraIdPat g) content) = true ∧
    replace_para_id content t g =
      sew (parachainIdPat t) (splitOnPat (parachainIdPat g) (para_phase content t g)) ∧
    sew (parachainIdPat g) (splitOnPat (parachainIdPat g) (para_phase content t g)) =
      para_phase content t g ∧
    cleanSegs (parachainIdPat g) (splitOnPat (parachainIdPat g) (para_phase content t g)) =
      true := by
  refine ⟨?_, replaceAll_eq_sew _ _ _, sew_splitOnPat _ _,
    cleanSegs_splitOnPat (paraIdPat_ne_nil g) _, replaceAll_eq_sew _ _ _,
    sew_splitOnPat _ _, cleanSegs_splitOnPat (parachainIdPat_ne_nil g) _⟩
  simp only [generate_plain_chain_spec, hprobe, hrun, hout, Bool.true_eq_false,
    if_false, reconcile_chain_spec, hgen, Except.map]

theorem c3_witness :
    generate_plain_chain_spec (fun _ => true) (fun _ => specFile1000)
      "./bin".toList 2001 =
      (.ok (replace_para_id specFile1000 2001 1000),
        [probe "./bin".toList buildSpecCmd, buildSpecInv "./bin".toList]) :=
  (c3_reconciliation_replaces_every_occurrence (fun _ => true) (fun _ => specFile1000)
    "./bin".toList specFile1000 2001 1000 rfl rfl rfl rfl).1

/-- The round-trip example file of the spec for `get_parachain_id`. -/
def specFile2002 : Str := "\x7b\"name\": \"Local Testnet\", \"para_id\": 2002\x7d".toList

/-- C4: `generate_plain_chain_spec` reads the generated identifier by parsing
the written file as JSON and taking the top-level `"para_id"` field as a
`u64`: on the example file it yields exactly 2002, and whenever the parsed
file has no `"para_id"` member the caller-supplied identifier is used as the
generated identifier. -/
theorem c4_get_parachain_id_roundtrip :
    get_parachain_id specFile2002 = .ok (some 2002) ∧
    ∀ (content : Str) (v : Json) (t : Nat),
      parseJson content = some v →
      objGet paraIdField v = none →
      t < 2 ^ 32 →
      get_parachain_id content = .ok none ∧ generated_id content t = .ok t := by
  refine ⟨by rfl, fun content v t hparse hget ht => ?_⟩
  have hgp : get_parachain_id content = .ok none := by
    simp only [get_parachain_id, hparse, hget, Option.bind]
  refine ⟨hgp, ?_⟩
  simp only [generated_id, hgp, Except.map, Option.getD]
  exact congrArg Except.ok (Nat.mod_eq_of_lt ht)

theorem c4_witness :
    (0 : Nat) < 2 ^ 32 ∧
    get_parachain_id "\x7b\"name\": \"A\"\x7d".toList = .ok none ∧
    generated_id "\x7b\"name\": \"A\"\x7d".toList 7 = .ok 7 :=
  ⟨by decide,
    c4_get_parachain_id_roundtrip.2 "\x7b\"name\": \"A\"\x7d".toList
      (Json.obj [("name".toList, Json.str "A".toList)]) 7 rfl rfl (by decide)⟩

/-- C5: the capability probe maps every failure of `<binary> <command> --help`
(any failure cause, collapsed into the runner oracle) to exactly
`MissingCommand` naming that command and that binary path — no other error
kind is ever produced — and succeeds exactly when the probe process does. -/
theorem c5_check_command_exists_uniform
    (runner : Invocation → Bool) (binary command : Str) :
    (check_command_exists runner binary command = .ok () ↔
      runner (probe binary command) = true) ∧
    (runner (probe binary command) = false →
      check_command_exists runner binary command =
        .error (.MissingCommand command binary)) ∧
    ∀ e, check_command_exists runner binary command = .error e →
      e = .MissingCommand command binary := by
  cases h : runner (probe binary command) with
  | false =>
    have hc : check_command_exists runner binary command =
        .error (.MissingCommand command binary) := by
      simp [check_command_exists, h]
    refine ⟨?_, fun _ => hc, fun e he => ?_⟩
    · rw [hc]
      constructor
      · intro hx
        exact absurd hx (by simp)
      · intro hx
        exact absurd hx (by decide)
    · rw [hc] at he
      cases he
      rfl
  | true =>
    have hc : check_command_exists runner binary command = .ok () := by
      simp [check_command_exists, h]
    refine ⟨?_, fun hf => ?_, fun e he => ?_⟩
    · rw [hc]
      exact ⟨fun _ => rfl, fun _ => rfl⟩
    · exact absurd hf (by decide)
    · rw [hc] at he
      exact Except.noConfusion he

theorem c5_witness :
    check_command_exists (fun _ => true) "/bin".toList "nonexistent_command".toList =
      .ok () :=
  (c5_check_command_exists_uniform (fun _ => true) "/bin".toList
    "nonexistent_command".toList).1.mpr rfl

/-- C6: binary resolution joins the build-output directory with exactly the
manifest-declared package name; it succeeds with that single candidate path
iff the path exists, fails with `MissingBinary` carrying the name when it
does not, and any path it (or the build orchestrator on top of it) returns
has had its existence checked and holds. -/
theorem c6_binary_path_exact_candidate :
    (∀ (fs : Str → Bool) (manifest : Str → Option Str) (target node name : Str),
      manifest node = some name →
        (binary_path fs manifest target node = .ok (pathJoin target name) ↔
          fs (pathJoin target name) = true) ∧
        (fs (pathJoin target name) = false →
          binary_path fs manifest target node = .error (.MissingBinary name)) ∧
        (∀ p, binary_path fs manifest target node = .ok p →
          p = pathJoin target name ∧ fs p = true)) ∧
    (∀ (fs : Str → Bool) (runner : Invocation → Bool) (manifest : Str → Option Str)
      (path : Str) (package : Option Str) (profile : Profile)
      (node_path : Option Str) (p : Str),
      build_parachain fs runner manifest path package profile node_path = .ok p →
        fs p = true) := by
  have key : ∀ (fs : Str → Bool) (manifest : Str → Option Str) (target node : Str)
      (p : Str), binary_path fs manifest target node = .ok p →
        (∃ name, manifest node = some name ∧ p = pathJoin target name) ∧ fs p = true := by
    intro fs manifest target node p hp
    unfold binary_path at hp
    cases hm : manifest node with
    | none => rw [hm] at hp; exact Except.noConfusion hp
    | some name =>
      rw [hm] at hp
      have hp' : (if fs (pathJoin target name) = true then
          (Except.ok (pathJoin target name) : Except Error Str)
        else .error (.MissingBinary name)) = .ok p := hp
      by_cases hfs : fs (pathJoin target name) = true
      · rw [if_pos hfs] at hp'
        cases hp'
        exact ⟨⟨name, rfl, rfl⟩, hfs⟩
      · rw [if_neg hfs] at hp'
        exact Except.noConfusion hp'
  constructor
  · intro fs manifest target node name hm
    refine ⟨⟨fun hok => ((key fs manifest target node _ hok).2), fun hfs => ?_⟩,
      fun hfs => ?_, fun p hp => ?_⟩
    · show binary_path fs manifest target node = .ok (pathJoin target name)
      unfold binary_path
      rw [hm]
      show (if fs (pathJoin target name) = true then
          (Except.ok (pathJoin target name) : Except Error Str)
        else .error (.MissingBinary name)) = .ok (pathJoin target name)
      rw [if_pos hfs]
    · unfold binary_path
      rw [hm]
      show (if fs (pathJoin target name) = true then
          (Except.ok (pathJoin target name) : Except Error Str)
        else .error (.MissingBinary name)) = .error (.MissingBinary name)
      rw [if_neg (by simp [hfs])]
    · obtain ⟨⟨name', hm', hp'⟩, hfsp⟩ := key fs manifest target node p hp
      rw [hm] at hm'
      cases hm'
      exact ⟨hp', hfsp⟩
  · intro fs runner manifest path package profile node_path p hp
    unfold build_parachain at hp
    by_cases hr : runner ⟨"cargo".toList, cargoArgs package profile⟩ = false
    · rw [if_pos hr] at hp
      exact Except.noConfusion hp
    · rw [if_neg hr] at hp
      exact (key fs manifest _ _ p hp).2

theorem c6_witness :
    binary_path (fun _ => true) (fun _ => some "parachain-template-node".toList)
      "./target/release".toList "./node".toList =
      .ok (pathJoin "./target/release".toList "parachain-template-node".toList) :=
  ((c6_binary_path_exact_candidate.1 (fun _ => true)
    (fun _ => some "parachain-template-node".toList) "./target/release".toList
    "./node".toList "parachain-template-node".toList rfl).1).mpr rfl

/-- C7: for every successfully parsed manifest, `is_supported` is true iff
one of the four fixed sentinel dependency names is a key of the direct
dependencies or, when a workspace section is present, of the workspace
dependencies; the test is name-only. Concretely it is false for a manifest
with no recognized dependency and becomes true once any one sentinel name is
added to either table. -/
theorem c7_is_supported_sentinels :
    (∀ m : Manifest, is_supported m = true ↔
      ∃ d ∈ DEPENDENCIES, d ∈ m.dependencies ∨
        ∃ w, m.workspace = some w ∧ d ∈ w.dependencies) ∧
    is_supported ⟨[], none⟩ = false ∧
    is_supported ⟨["cumulus-client-collator".toList], none⟩ = true ∧
    is_supported ⟨["serde".toList], some ⟨["polkadot-sdk".toList]⟩⟩ = true := by
  refine ⟨fun m => ?_, by decide, by decide, by decide⟩
  unfold is_supported
  rw [List.any_eq_true]
  constructor
  · rintro ⟨d, hd, hor⟩
    rw [Bool.or_eq_true] at hor
    refine ⟨d, hd, ?_⟩
    rcases hor with hdep | hws
    · exact Or.inl (contains_iff_mem.mp hdep)
    · cases hw : m.workspace with
      | none => rw [hw] at hws; exact Bool.noConfusion hws
      | some w =>
        rw [hw] at hws
        exact Or.inr ⟨w, rfl, contains_iff_mem.mp hws⟩
  · rintro ⟨d, hd, hor⟩
    refine ⟨d, hd, ?_⟩
    rw [Bool.or_eq_true]
    rcases hor with hdep | ⟨w, hw, hmem⟩
    · exact Or.inl (contains_iff_mem.mpr hdep)
    · rw [hw]
      exact Or.inr (contains_iff_mem.mpr hmem)

theorem c7_witness :
    is_supported ⟨["serde".toList], some ⟨["parachains-common".toList]⟩⟩ = true :=
  (c7_is_supported_sentinels.1 ⟨["serde".toList], some ⟨["parachains-common".toList]⟩⟩).mpr
    ⟨"parachains-common".toList, by decide,
      Or.inr ⟨⟨["parachains-common".toList]⟩, rfl, by decide⟩⟩

/-- C8: the generated identifier read from the file as a `u64` is narrowed by
the Rust `as u32` cast before reconciliation: when the file's `"para_id"`
value `v` is at least `2 ^ 32`, the replacement patterns are built from
`v % 2 ^ 32`, which differs from the value written in the file. -/
theorem c8_generated_id_truncated_to_u32
    (content : Str) (v t : Nat)
    (hv : get_parachain_id content = .ok (some v))
    (hge : 2 ^ 32 ≤ v) :
    generated_id content t = .ok (v % 2 ^ 32) ∧
    reconcile_chain_spec content t = .ok (replace_para_id content t (v % 2 ^ 32)) ∧
    v % 2 ^ 32 ≠ v := by
  have hg : generated_id content t = .ok (v % 2 ^ 32) := by
    simp only [generated_id, hv, Except.map, Option.getD]
  refine ⟨hg, ?_, ?_⟩
  · simp only [reconcile_chain_spec, hg, Except.map]
  · have hlt : v % 2 ^ 32 < 2 ^ 32 := Nat.mod_lt v (by decide)
    omega

/-- A chain-spec file whose `"para_id"` value exceeds `2 ^ 32`. -/
def specFileBig : Str := "\x7b\"para_id\": 4294967301\x7d".toList

theorem c8_witness :
    generated_id specFileBig 2001 = .ok (4294967301 % 2 ^ 32) ∧
    4294967301 % 2 ^ 32 ≠ 4294967301 :=
  ⟨(c8_generated_id_truncated_to_u32 specFileBig 4294967301 2001 rfl (by decide)).1,
    (c8_generated_id_truncated_to_u32 specFileBig 4294967301 2001 rfl (by decide)).2.2⟩

/-- C9: `generate_plain_chain_spec` invokes the replacement unconditionally —
whenever the generated identifier is computed as `g`, reconciliation is the
replacement with `g`, with no comparison against the target — and when `g`
equals the target both patterns map to themselves, leaving the file contents
exactly unchanged. -/
theorem c9_reconcile_identity_when_equal
    (content : Str) (t g : Nat)
    (hgen : generated_id content t = .ok g) :
    reconcile_chain_spec content t = .ok (replace_para_id content t g) ∧
    replace_para_id content t t = content ∧
    (g = t → reconcile_chain_spec content t = .ok content) := by
  have hself : replace_para_id content t t = content := by
    unfold replace_para_id para_phase
    rw [replaceAll_self, replaceAll_self]
  have hrec : reconcile_chain_spec content t = .ok (replace_para_id content t g) := by
    simp only [reconcile_chain_spec, hgen, Except.map]
  refine ⟨hrec, hself, fun hgt => ?_⟩
  rw [hrec, hgt, hself]

/-- A chain-spec file whose `"para_id"` already equals the target 2001. -/
def specFile2001 : Str := "\x7b\"para_id\": 2001\x7d".toList

theorem c9_witness :
    reconcile_chain_spec specFile2001 2001 = .ok specFile2001 :=
  (c9_reconcile_identity_when_equal specFile2001 2001 2001 rfl).2.2 rfl

/-- C10: when the top-level `"para_id"` member is present but not
representable as a `u64` (a string, a negative number, a fraction, ...),
`get_parachain_id` yields `None`, so `generate_plain_chain_spec` falls back
to the caller-supplied identifier as the generated identifier. -/
theorem c10_non_u64_field_falls_back
    (content : Str) (v j : Json) (t : Nat)
    (hparse : parseJson content = some v)
    (hget : objGet paraIdField v = some j)
    (hnum : asU64 j = none)
    (ht : t < 2 ^ 32) :
    get_parachain_id content = .ok none ∧ generated_id content t = .ok t := by
  have hgp : get_parachain_id content = .ok none := by
    simp only [get_parachain_id, hparse, hget, Option.bind, hnum]
  refine ⟨hgp, ?_⟩
  simp only [generated_id, hgp, Except.map, Option.getD]
  exact congrArg Except.ok (Nat.mod_eq_of_lt ht)

theorem c10_witness :
    (get_parachain_id "\x7b\"para_id\": \"2002\"\x7d".toList = .ok none ∧
      generated_id "\x7b\"para_id\": \"2002\"\x7d".toList 2001 = .ok 2001) ∧
    (get_parachain_id "\x7b\"para_id\": -5\x7d".toList = .ok none ∧
      generated_id "\x7b\"para_id\": -5\x7d".toList 2001 = .ok 2001) ∧
    (get_parachain_id "\x7b\"para_id\": 2.5\x7d".toList = .ok none ∧
      generated_id "\x7b\"para_id\": 2.5\x7d".toList 2001 = .ok 2001) :=
  ⟨c10_non_u64_field_falls_back "\x7b\"para_id\": \"2002\"\x7d".toList
      (Json.obj [(paraIdField, Json.str "2002".toList)]) (Json.str "2002".toList)
      2001 rfl rfl rfl (by decide),
    c10_non_u64_field_falls_back "\x7b\"para_id\": -5\x7d".toList
      (Json.obj [(paraIdField, Json.num true (-5))]) (Json.num true (-5))
      2001 rfl rfl rfl (by decide),
    c10_non_u64_field_falls_back "\x7b\"para_id\": 2.5\x7d".toList
      (Json.obj [(paraIdField, Json.num false 0)]) (Json.num false 0)
      2001 rfl rfl rfl (by decide)⟩

end PopParachains
